import Mathlib

/-!
Shallow embedding of the dnd5e-2014 compatibility shim and migration gate.

The repository wraps a namespaced settings store, per-document flag
accessors, the hook dispatcher and the sheet registry so that the legacy
system identifier "dnd5e" is redirected to the canonical identifier
"dnd5e-2014"; it also rewrites compendium reference strings between the two
namespaces and gates a one-time world migration on a persisted version.

Strings are modelled as `List Char`.  Wrapped operations that close over an
original implementation are parametrised by that original as a function
argument.  External Foundry collaborators (the settings store, the document
update/merge machinery, `foundry.utils.isNewerVersion`, `fromUuid`) are
modelled explicitly where the wrapped code calls them; each such model is
noted at its definition.
-/

/-- The canonical system identifier `"dnd5e-2014"`. -/
def canonicalNS : List Char := "dnd5e-2014".toList

/-- The legacy system identifier `"dnd5e"`. -/
def legacyNS : List Char := "dnd5e".toList

/-- JavaScript `String.prototype.replace` with a plain-string pattern:
replaces the first occurrence of `pat` in `s` by `repl`; if `pat` does not
occur, `s` is returned unchanged. -/
def replaceFirst (pat repl : List Char) : List Char → List Char
  | [] => if pat.isPrefixOf ([] : List Char) then repl ++ List.drop pat.length [] else []
  | c :: rest =>
    if pat.isPrefixOf (c :: rest) then repl ++ List.drop pat.length (c :: rest)
    else c :: replaceFirst pat repl rest

/-- The namespace canonicalisation performed inline by every wrapper in the
compatibility layer: `if (module === "dnd5e") module = "dnd5e-2014";`. -/
def canonModule (m : List Char) : List Char :=
  if m = legacyNS then canonicalNS else m

/-! ### Settings store (SettingsRedirector)

The underlying `game.settings` store is an external collaborator; it is
modelled as three namespaced key/value tables (stored values, registered
setting schemas, registered menus).  The original accessors write and read
the tables at the namespace/key they are given, with no redirection. -/

/-- Model of the underlying Foundry settings store: stored values,
registered setting definitions and registered menus, each keyed by
namespace and key. -/
structure SettingsStore (V S M : Type) where
  values : List Char → List Char → Option V
  schemas : List Char → List Char → Option S
  menus : List Char → List Char → Option M

/-- The saved `originalGet`: reads the stored value at exactly the
namespace and key it is given. -/
def originalGet {V S M : Type} (st : SettingsStore V S M) (ns key : List Char) : Option V :=
  st.values ns key

/-- The saved `originalSet`: writes the value at exactly the namespace and
key it is given. -/
def originalSet {V S M : Type} (st : SettingsStore V S M) (ns key : List Char) (v : V) :
    SettingsStore V S M :=
  { st with values := fun n k => if n = ns ∧ k = key then some v else st.values n k }

/-- The saved `originalRegister`: records a setting definition at exactly
the namespace and key it is given. -/
def originalRegister {V S M : Type} (st : SettingsStore V S M) (ns key : List Char) (d : S) :
    SettingsStore V S M :=
  { st with schemas := fun n k => if n = ns ∧ k = key then some d else st.schemas n k }

/-- The saved `originalRegisterMenu`: records a menu definition at exactly
the namespace and key it is given. -/
def originalRegisterMenu {V S M : Type} (st : SettingsStore V S M) (ns key : List Char) (d : M) :
    SettingsStore V S M :=
  { st with menus := fun n k => if n = ns ∧ k = key then some d else st.menus n k }

/-- Wrapped `game.settings.get`: canonicalises the namespace, then
delegates to the original. -/
def settingsGet {V S M : Type} (st : SettingsStore V S M) (m key : List Char) : Option V :=
  originalGet st (canonModule m) key

/-- Wrapped `game.settings.set`: canonicalises the namespace, then
delegates to the original. -/
def settingsSet {V S M : Type} (st : SettingsStore V S M) (m key : List Char) (v : V) :
    SettingsStore V S M :=
  originalSet st (canonModule m) key v

/-- Wrapped `game.settings.register`: canonicalises the namespace, then
delegates to the original. -/
def settingsRegister {V S M : Type} (st : SettingsStore V S M) (m key : List Char) (d : S) :
    SettingsStore V S M :=
  originalRegister st (canonModule m) key d

/-- Wrapped `game.settings.registerMenu`: canonicalises the namespace, then
delegates to the original. -/
def settingsRegisterMenu {V S M : Type} (st : SettingsStore V S M) (m key : List Char) (d : M) :
    SettingsStore V S M :=
  originalRegisterMenu st (canonModule m) key d

/-! ### Document flag and sheet-registry wrappers (EntityFlagRedirector,
SheetRegistryRedirector)

Each wrapper closes over the original method it replaces; here the original
is passed as a function argument of fully general result type, so the
theorems quantify over every possible underlying implementation. -/

/-- Wrapped `Document.prototype.getFlag`: canonicalises the scope, then
delegates to the saved original. -/
def documentGetFlag {α : Type} (orig : List Char → List Char → α) (scope key : List Char) : α :=
  orig (canonModule scope) key

/-- Wrapped `Document.prototype.setFlag`: canonicalises the scope, then
delegates to the saved original. -/
def documentSetFlag {α β : Type} (orig : List Char → List Char → β → α)
    (scope key : List Char) (v : β) : α :=
  orig (canonModule scope) key v

/-- Wrapped `Document.prototype.unsetFlag`: canonicalises the scope, then
delegates to the saved original. -/
def documentUnsetFlag {α : Type} (orig : List Char → List Char → α) (scope key : List Char) : α :=
  orig (canonModule scope) key

/-- Wrapped `DocumentSheetConfig.registerSheet`: canonicalises the scope
argument, then delegates to the saved original. -/
def sheetConfigRegisterSheet {α γ δ ε : Type} (orig : δ → List Char → γ → ε → α)
    (documentClass : δ) (scope : List Char) (sheetClass : γ) (options : ε) : α :=
  orig documentClass (canonModule scope) sheetClass options

/-- Wrapped legacy `Actors.registerSheet`: canonicalises the scope
argument, then delegates to the saved original. -/
def actorsRegisterSheet {α γ ε : Type} (orig : List Char → γ → ε → α)
    (scope : List Char) (sheetClass : γ) (options : ε) : α :=
  orig (canonModule scope) sheetClass options

/-! ### Hook mirroring (HookMirror) -/

/-- The canonical hook-name marker `"dnd5e-2014."`. -/
def canonicalHookPfx : List Char := "dnd5e-2014.".toList

/-- The legacy hook-name marker `"dnd5e."`. -/
def legacyHookPfx : List Char := "dnd5e.".toList

/-- Wrapped `Hooks.callAll`.  The original dispatcher is modelled as a
state transformer `orig : σ → name → args → σ × β` (it may have arbitrary
side effects on `σ` and returns a value).  The wrapper calls the original
on the given hook, then, when the hook name starts with `"dnd5e-2014."`,
calls the original once more on the name with that marker replaced by
`"dnd5e."`, discarding that second return value, and returns the first
call's result. -/
def hooksCallAll {σ α β : Type} (orig : σ → List Char → α → σ × β)
    (s : σ) (hook : List Char) (args : α) : σ × β :=
  let r := orig s hook args
  if canonicalHookPfx.isPrefixOf hook then
    let legacyHook := replaceFirst canonicalHookPfx legacyHookPfx hook
    ((orig r.1 legacyHook args).1, r.2)
  else r

/-! ### Compendium reference rewriting (ReferenceRewriter) -/

/-- The canonical compendium reference marker `"Compendium.dnd5e-2014."`. -/
def compendiumCanonicalPfx : List Char := "Compendium.dnd5e-2014.".toList

/-- The legacy compendium reference marker `"Compendium.dnd5e."`. -/
def compendiumLegacyPfx : List Char := "Compendium.dnd5e.".toList

/-- Embedding of `game.dnd5e.getCompendiumReference`, with `game.system.id`
equal to `"dnd5e-2014"`: a path already under the current system is returned as-is;
a path under `"Compendium.dnd5e."` has that marker replaced by the
canonical one; the third source branch (repeated canonical check) is kept
for faithfulness although the first branch shadows it; any other path is
returned unchanged. -/
def getCompendiumReference (p : List Char) : List Char :=
  if compendiumCanonicalPfx.isPrefixOf p then p
  else if compendiumLegacyPfx.isPrefixOf p then
    replaceFirst compendiumLegacyPfx compendiumCanonicalPfx p
  else if compendiumCanonicalPfx.isPrefixOf p then
    replaceFirst compendiumCanonicalPfx compendiumCanonicalPfx p
  else p

/-- Embedding of `game.dnd5e.findCompendiumEntry`.  `fromUuid` is an external resolver,
modelled as a function from paths to an optional entity (`none` = miss).
The first attempt uses `getCompendiumReference`; on a miss, the fallback
path substitutes the legacy marker when the input starts with the canonical
marker, and otherwise replaces the legacy marker by the canonical one. -/
def findCompendiumEntry {E : Type} (fromUuid : List Char → Option E)
    (referencePath : List Char) : Option E :=
  let currentSystemPath := getCompendiumReference referencePath
  match fromUuid currentSystemPath with
  | some d => some d
  | none =>
    let fallbackPath :=
      if compendiumCanonicalPfx.isPrefixOf referencePath then
        replaceFirst compendiumCanonicalPfx compendiumLegacyPfx referencePath
      else
        replaceFirst compendiumLegacyPfx compendiumCanonicalPfx referencePath
    fromUuid fallbackPath

/-- The resolver described by the specification, for comparison with
`findCompendiumEntry`: attempt the lookup with the canonical namespace
substituted first and, on a miss, retry with the legacy alias substituted
into the path. -/
def specResolve {E : Type} (fromUuid : List Char → Option E) (p : List Char) : Option E :=
  let canonicalAttempt :=
    if compendiumLegacyPfx.isPrefixOf p then
      replaceFirst compendiumLegacyPfx compendiumCanonicalPfx p
    else p
  let legacyAttempt :=
    if compendiumCanonicalPfx.isPrefixOf p then
      replaceFirst compendiumCanonicalPfx compendiumLegacyPfx p
    else p
  match fromUuid canonicalAttempt with
  | some d => some d
  | none => fromUuid legacyAttempt

/-! ### Nested configuration trees and `resolveDynamicReferences`

The configuration object walked at boot is a nested structure of mappings,
sequences and primitives; it is modelled as a mutual inductive so the
recursive walk is structural.  JavaScript `null` is `typeof "object"` but
excluded by the walk's `value !== null` test, so it is a leaf here. -/

mutual

/-- A nested configuration value: a string, a number, a boolean, `null`, a
mapping or a sequence. -/
inductive JValue : Type where
  | vstr : List Char → JValue
  | vnum : Int → JValue
  | vbool : Bool → JValue
  | vnull : JValue
  | vobj : JEntries → JValue
  | varr : JArr → JValue

/-- The ordered key/value entries of a mapping. -/
inductive JEntries : Type where
  | nil : JEntries
  | cons : List Char → JValue → JEntries → JEntries

/-- The ordered elements of a sequence. -/
inductive JArr : Type where
  | nil : JArr
  | cons : JValue → JArr → JArr

end

mutual

/-- Embedding of `resolveDynamicReferences`: walks a nested value; every string that
starts with `"Compendium.dnd5e."` has that marker replaced by
`"Compendium.dnd5e-2014."` (via `String.prototype.replace`, with
`game.system.id = "dnd5e-2014"`); every other leaf is left unchanged;
mappings and sequences are walked recursively. -/
def resolveDynamicReferences : JValue → JValue
  | .vstr s =>
    if compendiumLegacyPfx.isPrefixOf s then
      .vstr (replaceFirst compendiumLegacyPfx compendiumCanonicalPfx s)
    else .vstr s
  | .vnum n => .vnum n
  | .vbool b => .vbool b
  | .vnull => .vnull
  | .vobj es => .vobj (resolveEntries es)
  | .varr vs => .varr (resolveArr vs)

/-- The walk of `resolveDynamicReferences` over a mapping's entries. -/
def resolveEntries : JEntries → JEntries
  | .nil => .nil
  | .cons k v rest => .cons k (resolveDynamicReferences v) (resolveEntries rest)

/-- The walk of `resolveDynamicReferences` over a sequence's elements. -/
def resolveArr : JArr → JArr
  | .nil => .nil
  | .cons v rest => .cons (resolveDynamicReferences v) (resolveArr rest)

end

mutual

/-- Applies a string transformation to every string leaf of a nested
value, leaving all non-string leaves and the tree shape unchanged.  Used
to state that the rewriting walk acts exactly leaf-wise at every depth. -/
def mapStrings (f : List Char → List Char) : JValue → JValue
  | .vstr s => .vstr (f s)
  | .vnum n => .vnum n
  | .vbool b => .vbool b
  | .vnull => .vnull
  | .vobj es => .vobj (mapStringsEntries f es)
  | .varr vs => .varr (mapStringsArr f vs)

/-- The action of `mapStrings` over a mapping's entries. -/
def mapStringsEntries (f : List Char → List Char) : JEntries → JEntries
  | .nil => .nil
  | .cons k v rest => .cons k (mapStrings f v) (mapStringsEntries f rest)

/-- The action of `mapStrings` over a sequence's elements. -/
def mapStringsArr (f : List Char → List Char) : JArr → JArr
  | .nil => .nil
  | .cons v rest => .cons (mapStrings f v) (mapStringsArr f rest)

end

/-- The string action described by the specification for the rewriting
walk: a string matching `"Compendium.dnd5e.<rest>"` becomes
`"Compendium.dnd5e-2014.<rest>"`; every other string is left unchanged. -/
def specRewriteString (s : List Char) : List Char :=
  if compendiumLegacyPfx.isPrefixOf s then
    compendiumCanonicalPfx ++ List.drop compendiumLegacyPfx.length s
  else s

/-! ### Migration gate

The once-per-start `ready` gate (GM path), from the read of
`systemMigrationVersion` onward, modelled as a pure decision function.
`foundry.utils.isNewerVersion` is an external collaborator; versions are
modelled as lists of numeric components compared positionally, exactly as
that helper compares numeric dot-separated versions (missing components
make the comparison return `false`). -/

/-- Model of `foundry.utils.isNewerVersion` on numeric dot-separated
versions: `isNewerVersion v1 v0` is `true` when `v1` is strictly newer
than `v0` in the positional comparison. -/
def isNewerVersion : List Nat → List Nat → Bool
  | [], _ => false
  | _ :: _, [] => false
  | a :: as, b :: bs => if a = b then isNewerVersion as bs else decide (b < a)

/-- The inputs read by the migration gate: the stored
`systemMigrationVersion` (`none` when unset or empty), the number of
persisted world documents (actors + scenes + items), the system's
`needsMigrationVersion` and `compatibleMigrationVersion` flags, and the
current system version. -/
structure GateInput where
  stored : Option (List Nat)
  totalDocuments : Nat
  needsMigrationVersion : List Nat
  compatibleMigrationVersion : List Nat
  systemVersion : List Nat

/-- The observable outcome of one run of the gate: the version stamped
into `systemMigrationVersion` by the gate itself (if any), whether the
compendium folder reparenting ran, whether the persistent too-old warning
was shown, and whether `migrateWorld` was invoked. -/
structure GateResult where
  stamped : Option (List Nat)
  reparented : Bool
  warned : Bool
  migrated : Bool
  deriving DecidableEq, Repr

/-- The `ready`-hook migration gate, GM path.  Mirrors the source: a
missing stored version with zero documents stamps the current version and
returns; a stored version that `needsMigrationVersion` is not newer than
returns with no action; otherwise the reparenting runs when `"3.0.0"` is
newer than the stored version, the persistent warning shows when
`compatibleMigrationVersion` is newer than the stored version, and
`migrateWorld` is invoked unconditionally at the end of the hook.  When
the stored version is absent but documents exist, the version comparisons
against the absent value are `false` (in the source the fallback world
flag read yields a non-version value for which `isNewerVersion` returns
`false`), and `migrateWorld` still runs. -/
def migrationGate (i : GateInput) : GateResult :=
  match i.stored with
  | none =>
    if i.totalDocuments = 0 then
      { stamped := some i.systemVersion, reparented := false, warned := false, migrated := false }
    else
      { stamped := none, reparented := false, warned := false, migrated := true }
  | some cv =>
    if ¬ (isNewerVersion i.needsMigrationVersion cv = true) then
      { stamped := none, reparented := false, warned := false, migrated := false }
    else
      { stamped := none,
        reparented := isNewerVersion [3, 0, 0] cv,
        warned := isNewerVersion i.compatibleMigrationVersion cv,
        migrated := true }

/-! ### System flags `setFlag` override (system-flags mixin)

The mixin's `setFlag` is modelled over flattened flag bags: a flag object
is identified with the partial map from dotted paths (lists of key
segments) to primitive values.  `foundry.utils.expandObject` on the
one-key object `{[key]: value}` yields the single path obtained by
splitting `key` on `"."`; `DataModel.updateSource(changes, {dryRun:true})`
returns the sub-map of `changes` whose values differ from the model's
current source (the registered defaults overridden by the stored flags);
`new Model(changes).toObject()` is the defaults overridden by `changes`;
`Document.update` merges the submitted change object path-wise into the
stored flags.  These collaborator models are noted field by field below. -/

/-- A flattened flag path: the dotted key split into segments. -/
def FlagPath : Type := List (List Char)

instance : DecidableEq FlagPath := by
  unfold FlagPath
  infer_instance

/-- A flattened flag object: a partial map from paths to values. -/
def Bag (V : Type) : Type := FlagPath → Option V

/-- Splitting a dotted key into its path segments (the effect of
`foundry.utils.expandObject` on a one-key object). -/
def splitOnDot (s : List Char) : FlagPath :=
  s.splitOn '.'

/-- Path-wise lookup in a finite change list (first match wins). -/
def lk {V : Type} : List (FlagPath × V) → FlagPath → Option V
  | [], _ => none
  | e :: rest, p => if e.1 = p then some e.2 else lk rest p

/-- A finite change list viewed as a flag object. -/
def listToBag {V : Type} (l : List (FlagPath × V)) : Bag V :=
  fun p => lk l p

/-- Path-wise merge: `upd` overrides `base` wherever `upd` is defined
(the effect of `foundry.utils.mergeObject` / `Document.update` on
flattened objects, and of constructing a data model from data over its
schema defaults). -/
def override {V : Type} (base upd : Bag V) : Bag V :=
  fun p => match upd p with
    | some v => some v
    | none => base p

/-- The dry-run diff computed by `updateSource(changes, {dryRun:true})`
for the one-path change `[(p, value)]` against a model whose source is
`defaults` overridden by the stored bag: the change is kept exactly when
the source value at its path differs. -/
def setFlagDiff {V : Type} [DecidableEq V] (defaults bag : Bag V)
    (p : FlagPath) (value : V) : List (FlagPath × V) :=
  [(p, value)].filter (fun c => decide (override defaults bag c.1 ≠ some c.2))

/-- The mixin's `setFlag(scope, key, value)` on a document whose flags are
`flags` (per-scope, `none` when the scope has no flag object) and whose
`_systemFlagsDataModel` has schema defaults `model?` (`none` when no model
is registered).  Returns the document's flags after the update.  For the
canonical scope with a registered model: the key/value pair is expanded to
a one-path change; with a prior flag object the dry-run diff is merged
into it; with no prior object the change converted through the model
(defaults overridden by the change) becomes the scope's flag object.  Any
other scope falls through to the core `setFlag`, which sets the single
path in that scope's flag object. -/
def setFlag {V : Type} [DecidableEq V] (model? : Option (Bag V))
    (flags : List Char → Option (Bag V)) (scope key : List Char) (value : V) :
    List Char → Option (Bag V) :=
  if scope = canonicalNS ∧ model?.isSome then
    let defaults : Bag V := model?.getD (fun _ => none)
    let changes : List (FlagPath × V) := [(splitOnDot key, value)]
    let newBag : Bag V :=
      match flags canonicalNS with
      | some bag => override bag (listToBag (setFlagDiff defaults bag (splitOnDot key) value))
      | none => override defaults (listToBag changes)
    fun s => if s = canonicalNS then some newBag else flags s
  else
    fun s =>
      if s = scope then
        some (override ((flags scope).getD (fun _ => none))
          (listToBag [(splitOnDot key, value)]))
      else flags s

/-- The effective flag value a reader observes for the canonical scope:
the registered defaults overridden by the stored flag object (the model
reconstructed by `prepareData`). -/
def flagView {V : Type} (defaults : Bag V) (flags : List Char → Option (Bag V))
    (q : FlagPath) : Option V :=
  override defaults ((flags canonicalNS).getD (fun _ => none)) q

/-! ### Concrete fixtures used by witness and counterexample theorems -/

/-- An empty settings store over numeric payloads. -/
def wStore : SettingsStore Nat Nat Nat :=
  ⟨fun _ _ => none, fun _ _ => none, fun _ _ => none⟩

/-- A concrete flag schema default: path `["d"]` defaults to `1`. -/
def wDefaults : Bag Nat := listToBag [([['d']], 1)]

/-- Concrete document flags: the canonical scope holds `{a: {b: 7}}`. -/
def wFlags : List Char → Option (Bag Nat) :=
  fun s => if s = canonicalNS then some (listToBag [([['a'], ['b']], 7)]) else none

/-- A concrete resolver that only knows the legacy-namespace path
`"Compendium.dnd5e.X"`. -/
def wResolver : List Char → Option Unit :=
  fun p => if p = compendiumLegacyPfx ++ "X".toList then some () else none

/-! ## Helper lemmas -/

theorem isPrefixOf_append_self (pat rest : List Char) :
    pat.isPrefixOf (pat ++ rest) = true := by
  rw [ List.isPrefixOf_iff_prefix]
  exact List.prefix_append pat rest

theorem isPrefixOf_append_false_of_ne_at (l p : List Char) (i : Nat)
    (h1 : i < l.length) (h2 : i < p.length) (hne : l[i]? ≠ p[i]?) :
    ∀ t, l.isPrefixOf (p ++ t) = false := by
  intro t
  by_contra h
  rw [Bool.not_eq_false, List.isPrefixOf_iff_prefix] at h
  obtain ⟨u, hu⟩ := h
  apply hne
  have := congrArg (fun xs => xs[i]?) hu
  simp only at this
  rw [List.getElem?_append, List.getElem?_append, if_pos h1, if_pos h2] at this
  rw [this]

theorem replaceFirst_eq_drop_of_isPrefixOf (pat repl s : List Char)
    (h : pat.isPrefixOf s = true) :
    replaceFirst pat repl s = repl ++ List.drop pat.length s := by
  cases s with
  | nil => simp [replaceFirst, h]
  | cons c rest => simp [replaceFirst, h]

theorem replaceFirst_append_self (pat repl rest : List Char) :
    replaceFirst pat repl (pat ++ rest) = repl ++ rest := by
  rw [replaceFirst_eq_drop_of_isPrefixOf pat repl _ (isPrefixOf_append_self pat rest)]
  simp

theorem canonicalHookPfx_not_in_legacy (rest : List Char) :
    canonicalHookPfx.isPrefixOf (legacyHookPfx ++ rest) = false := by
  apply isPrefixOf_append_false_of_ne_at canonicalHookPfx legacyHookPfx 5
  · decide
  · decide
  · decide

theorem compendiumCanonicalPfx_not_in_legacy (rest : List Char) :
    compendiumCanonicalPfx.isPrefixOf (compendiumLegacyPfx ++ rest) = false := by
  apply isPrefixOf_append_false_of_ne_at compendiumCanonicalPfx compendiumLegacyPfx 16
  · decide
  · decide
  · decide

theorem compendiumLegacyPfx_not_in_canonical (rest : List Char) :
    compendiumLegacyPfx.isPrefixOf (compendiumCanonicalPfx ++ rest) = false := by
  apply isPrefixOf_append_false_of_ne_at compendiumLegacyPfx compendiumCanonicalPfx 16
  · decide
  · decide
  · decide

theorem canonModule_legacy : canonModule legacyNS = canonicalNS := by decide

theorem canonModule_canonical : canonModule canonicalNS = canonicalNS := by decide

theorem canonModule_of_ne (m : List Char) (h : m ≠ legacyNS) : canonModule m = m := by
  simp [canonModule, h]

theorem legacy_ne_canonical : legacyNS ≠ canonicalNS := by decide

theorem replaceFirst_eq_self_of_no_occurrence (pat repl s : List Char)
    (h : ¬ pat <:+: s) : replaceFirst pat repl s = s := by
  induction s with
  | nil =>
    have hp : pat.isPrefixOf ([] : List Char) = false := by
      rw [Bool.eq_false_iff]
      intro hc
      rw [ List.isPrefixOf_iff_prefix] at hc
      exact h hc.isInfix
    simp [replaceFirst, hp]
  | cons c rest ih =>
    have hp : pat.isPrefixOf (c :: rest) = false := by
      rw [Bool.eq_false_iff]
      intro hc
      rw [ List.isPrefixOf_iff_prefix] at hc
      exact h hc.isInfix
    rw [replaceFirst, hp]
    simp only [Bool.false_eq_true, if_false]
    rw [ih (fun hc => h (List.infix_cons hc))]

/-! ## Claim theorems -/

/-- C1: For the canonical namespace and the legacy alias, and for every key
and value: a set through the legacy identity is read back by a canonical
get and vice versa; register and registerMenu calls made under the legacy
alias are filed under the canonical namespace; the stored value and
registered schema live under the canonical namespace only, with the raw
legacy slot untouched, regardless of which identity was used. -/
theorem settings_dual_identity {V S M : Type} (st : SettingsStore V S M)
    (k : List Char) (v : V) (sch : S) (menu : M) :
    settingsGet (settingsSet st legacyNS k v) canonicalNS k = some v
    ∧ settingsGet (settingsSet st canonicalNS k v) legacyNS k = some v
    ∧ settingsSet st legacyNS k v = settingsSet st canonicalNS k v
    ∧ settingsRegister st legacyNS k sch = settingsRegister st canonicalNS k sch
    ∧ settingsRegisterMenu st legacyNS k menu = settingsRegisterMenu st canonicalNS k menu
    ∧ (settingsSet st legacyNS k v).values canonicalNS k = some v
    ∧ (settingsSet st legacyNS k v).values legacyNS k = st.values legacyNS k
    ∧ (settingsRegister st legacyNS k sch).schemas canonicalNS k = some sch
    ∧ (settingsRegister st legacyNS k sch).schemas legacyNS k = st.schemas legacyNS k := by
  refine ⟨?_, ?_, ?_, ?_, ?_, ?_, ?_, ?_, ?_⟩ <;>
    simp [settingsGet, settingsSet, settingsRegister, settingsRegisterMenu,
      originalGet, originalSet, originalRegister, originalRegisterMenu,
      canonModule_legacy, canonModule_canonical, legacy_ne_canonical]

/-- C8: For every namespace that is neither the canonical id nor the
legacy alias, canonicalisation is the identity and every wrapped settings,
flag and sheet-registry call forwards its arguments to the underlying
implementation completely unchanged. -/
theorem foreign_namespaces_pass_through {V S M α β γ δ ε : Type}
    (st : SettingsStore V S M) (origF : List Char → List Char → α)
    (origSetF : List Char → List Char → β → α)
    (origSheet : δ → List Char → γ → ε → α) (origActors : List Char → γ → ε → α)
    (m k : List Char) (v : V) (sch : S) (menu : M) (b : β)
    (dc : δ) (sc : γ) (opts : ε)
    (_hc : m ≠ canonicalNS) (hl : m ≠ legacyNS) :
    canonModule m = m
    ∧ settingsGet st m k = originalGet st m k
    ∧ settingsSet st m k v = originalSet st m k v
    ∧ settingsRegister st m k sch = originalRegister st m k sch
    ∧ settingsRegisterMenu st m k menu = originalRegisterMenu st m k menu
    ∧ documentGetFlag origF m k = origF m k
    ∧ documentSetFlag origSetF m k b = origSetF m k b
    ∧ documentUnsetFlag origF m k = origF m k
    ∧ sheetConfigRegisterSheet origSheet dc m sc opts = origSheet dc m sc opts
    ∧ actorsRegisterSheet origActors m sc opts = origActors m sc opts := by
  refine ⟨?_, ?_, ?_, ?_, ?_, ?_, ?_, ?_, ?_, ?_⟩ <;>
    simp [settingsGet, settingsSet, settingsRegister, settingsRegisterMenu,
      documentGetFlag, documentSetFlag, documentUnsetFlag,
      sheetConfigRegisterSheet, actorsRegisterSheet, canonModule_of_ne m hl]

/-- Witness for C8 at the concrete foreign namespace `"my-module"`. -/
theorem foreign_namespaces_pass_through_witness :
    ("my-module".toList ≠ canonicalNS ∧ "my-module".toList ≠ legacyNS)
    ∧ (canonModule "my-module".toList = "my-module".toList
      ∧ settingsGet wStore "my-module".toList "k".toList =
          originalGet wStore "my-module".toList "k".toList
      ∧ settingsSet wStore "my-module".toList "k".toList 3 =
          originalSet wStore "my-module".toList "k".toList 3
      ∧ settingsRegister wStore "my-module".toList "k".toList 4 =
          originalRegister wStore "my-module".toList "k".toList 4
      ∧ settingsRegisterMenu wStore "my-module".toList "k".toList 5 =
          originalRegisterMenu wStore "my-module".toList "k".toList 5
      ∧ documentGetFlag (fun a b => (a, b)) "my-module".toList "k".toList =
          ("my-module".toList, "k".toList)
      ∧ documentSetFlag (fun a b (_ : Nat) => (a, b)) "my-module".toList "k".toList 6 =
          ("my-module".toList, "k".toList)
      ∧ documentUnsetFlag (fun a b => (a, b)) "my-module".toList "k".toList =
          ("my-module".toList, "k".toList)
      ∧ sheetConfigRegisterSheet (fun (_ : Nat) a (_ : Nat) (_ : Nat) => (a, a)) 0
          "my-module".toList 1 2 = ("my-module".toList, "my-module".toList)
      ∧ actorsRegisterSheet (fun a (_ : Nat) (_ : Nat) => (a, a)) "my-module".toList 1 2 =
          ("my-module".toList, "my-module".toList)) :=
  ⟨⟨by decide, by decide⟩,
    foreign_namespaces_pass_through wStore (fun a b => (a, b)) (fun a b _ => (a, b))
      (fun _ a _ _ => (a, a)) (fun a _ _ => (a, a)) "my-module".toList "k".toList
      3 4 5 6 0 1 2 (by decide) (by decide)⟩

/-- C10: The wrapped `Hooks.callAll` returns exactly the value produced by
the original dispatch under the name the caller used; the mirrored legacy
dispatch's return value is discarded and never alters the caller's result,
whatever the original dispatcher does. -/
theorem callAll_returns_original_result {σ α β : Type}
    (orig : σ → List Char → α → σ × β) (s : σ) (hook : List Char) (args : α) :
    (hooksCallAll orig s hook args).2 = (orig s hook args).2 := by
  unfold hooksCallAll
  cases h : canonicalHookPfx.isPrefixOf hook <;> simp [h]

/-- C3: A hook name under the canonical marker is dispatched first under
that name and then, synchronously within the same call, once more with the
marker replaced by the legacy one and the same arguments; a hook name
under the legacy marker is dispatched exactly once, with no canonical
mirroring. -/
theorem callAll_mirrors_one_way {σ α β : Type}
    (orig : σ → List Char → α → σ × β) (s : σ) (rest : List Char) (args : α) :
    hooksCallAll orig s (canonicalHookPfx ++ rest) args =
      ((orig (orig s (canonicalHookPfx ++ rest) args).1 (legacyHookPfx ++ rest) args).1,
        (orig s (canonicalHookPfx ++ rest) args).2)
    ∧ hooksCallAll orig s (legacyHookPfx ++ rest) args =
        orig s (legacyHookPfx ++ rest) args := by
  constructor
  · simp [hooksCallAll, isPrefixOf_append_self, replaceFirst_append_self]
  · simp [hooksCallAll, canonicalHookPfx_not_in_legacy]

/-- C9: `getCompendiumReference` is idempotent: applying it to its own
output returns that output unchanged. -/
theorem getCompendiumReference_idempotent (p : List Char) :
    getCompendiumReference (getCompendiumReference p) = getCompendiumReference p := by
  by_cases h1 : compendiumCanonicalPfx.isPrefixOf p = true
  · simp [getCompendiumReference, h1]
  · have h1' : compendiumCanonicalPfx.isPrefixOf p = false := by
      rwa [Bool.not_eq_true] at h1
    by_cases h2 : compendiumLegacyPfx.isPrefixOf p = true
    · obtain ⟨rest, hrest⟩ : ∃ rest, p = compendiumLegacyPfx ++ rest := by
        rw [ List.isPrefixOf_iff_prefix] at h2
        obtain ⟨t, ht⟩ := h2
        exact ⟨t, ht.symm⟩
      subst hrest
      simp [getCompendiumReference, h1', h2, replaceFirst_append_self,
        isPrefixOf_append_self]
    · have h2' : compendiumLegacyPfx.isPrefixOf p = false := by
        rwa [Bool.not_eq_true] at h2
      simp [getCompendiumReference, h1', h2']

/-- C2 counterexample: with stored version `2.0.0`, migration floor
`3.0.0` and `needsMigrationVersion` `3.1.0`, the gate does surface the
persistent warning, yet `migrateWorld` is still invoked in the same run —
the claim that the migration steps are never invoked when the stored
version is below the floor is false on the code. -/
theorem migration_blocked_counterexample :
    isNewerVersion [3, 0, 0] [2, 0, 0] = true
    ∧ (migrationGate ⟨some [2, 0, 0], 5, [3, 1, 0], [3, 0, 0], [3, 3, 1]⟩).warned = true
    ∧ (migrationGate ⟨some [2, 0, 0], 5, [3, 1, 0], [3, 0, 0], [3, 3, 1]⟩).migrated = true := by
  decide

/-- C2 (amended): when the stored version is non-null, a migration is
needed, and the stored version is strictly below the compatible floor, the
gate surfaces the persistent non-fatal warning and then still invokes
`migrateWorld`: the run proceeds despite the warning. -/
theorem migration_blocked_still_migrates (i : GateInput) (cv : List Nat)
    (h1 : i.stored = some cv)
    (h2 : isNewerVersion i.needsMigrationVersion cv = true)
    (h3 : isNewerVersion i.compatibleMigrationVersion cv = true) :
    (migrationGate i).warned = true ∧ (migrationGate i).migrated = true := by
  simp [migrationGate, h1, h2, h3]

/-- Witness for the amended C2 at the concrete blocked configuration. -/
theorem migration_blocked_still_migrates_witness :
    (GateInput.stored ⟨some [2, 0, 0], 5, [3, 1, 0], [3, 0, 0], [3, 3, 1]⟩ = some [2, 0, 0]
      ∧ isNewerVersion [3, 1, 0] [2, 0, 0] = true
      ∧ isNewerVersion [3, 0, 0] [2, 0, 0] = true)
    ∧ ((migrationGate ⟨some [2, 0, 0], 5, [3, 1, 0], [3, 0, 0], [3, 3, 1]⟩).warned = true
      ∧ (migrationGate ⟨some [2, 0, 0], 5, [3, 1, 0], [3, 0, 0], [3, 3, 1]⟩).migrated = true) :=
  ⟨⟨rfl, by decide, by decide⟩,
    migration_blocked_still_migrates ⟨some [2, 0, 0], 5, [3, 1, 0], [3, 0, 0], [3, 3, 1]⟩
      [2, 0, 0] rfl (by decide) (by decide)⟩

/-- C7: when the stored migration version is absent and there are zero
persisted documents, the gate stamps the current system version, runs no
reparenting, shows no warning and never invokes `migrateWorld`. -/
theorem fresh_world_stamps_version (i : GateInput)
    (h1 : i.stored = none) (h2 : i.totalDocuments = 0) :
    migrationGate i = ⟨some i.systemVersion, false, false, false⟩ := by
  simp [migrationGate, h1, h2]

/-- Witness for C7 at a concrete fresh world. -/
theorem fresh_world_stamps_version_witness :
    (GateInput.stored ⟨none, 0, [3, 1, 0], [0, 8], [3, 3, 1]⟩ = none
      ∧ GateInput.totalDocuments ⟨none, 0, [3, 1, 0], [0, 8], [3, 3, 1]⟩ = 0)
    ∧ migrationGate ⟨none, 0, [3, 1, 0], [0, 8], [3, 3, 1]⟩ =
        ⟨some [3, 3, 1], false, false, false⟩ :=
  ⟨⟨rfl, rfl⟩, fresh_world_stamps_version ⟨none, 0, [3, 1, 0], [0, 8], [3, 3, 1]⟩ rfl rfl⟩

/-- C6 counterexample: for the legacy-namespace reference
`"Compendium.dnd5e.X"` and a resolver that only knows that very path,
`findCompendiumEntry` misses (it substitutes the canonical namespace on
both attempts), while the specified alias-fallback resolution would find
the entry — so the claim that every miss retries with each legacy alias
substituted is false on the code. -/
theorem findCompendiumEntry_counterexample :
    findCompendiumEntry wResolver (compendiumLegacyPfx ++ "X".toList) = none
    ∧ specResolve wResolver (compendiumLegacyPfx ++ "X".toList) = some () := by
  decide

/-- C6 (amended): `findCompendiumEntry` attempts the canonical-substituted
path first and never throws (a total miss is `none`); on a miss it retries
with the legacy namespace substituted only when the input starts with the
canonical marker; for an input under the legacy marker the fallback
substitutes the canonical namespace again, so the legacy path itself is
never attempted; inputs in which the legacy marker does not occur at all
and that are not under the canonical marker are looked up unchanged on
both attempts, and absence is returned as `none`. -/
theorem findCompendiumEntry_fallback_shape {E : Type} (f : List Char → Option E) :
    (∀ rest, findCompendiumEntry f (compendiumCanonicalPfx ++ rest) =
      match f (compendiumCanonicalPfx ++ rest) with
      | some d => some d
      | none => f (compendiumLegacyPfx ++ rest))
    ∧ (∀ rest, findCompendiumEntry f (compendiumLegacyPfx ++ rest) =
      match f (compendiumCanonicalPfx ++ rest) with
      | some d => some d
      | none => f (compendiumCanonicalPfx ++ rest))
    ∧ (∀ p, compendiumCanonicalPfx.isPrefixOf p = false →
        ¬ compendiumLegacyPfx <:+: p →
        findCompendiumEntry f p = f p) := by
  refine ⟨?_, ?_, ?_⟩
  · intro rest
    simp [findCompendiumEntry, getCompendiumReference, isPrefixOf_append_self,
      replaceFirst_append_self]
  · intro rest
    simp [findCompendiumEntry, getCompendiumReference,
      compendiumCanonicalPfx_not_in_legacy, isPrefixOf_append_self,
      replaceFirst_append_self]
  · intro p hcan hno
    have hleg : compendiumLegacyPfx.isPrefixOf p = false := by
      rw [Bool.eq_false_iff]
      intro hc
      rw [ List.isPrefixOf_iff_prefix] at hc
      exact hno hc.isInfix
    simp only [findCompendiumEntry, getCompendiumReference, hcan, hleg]
    simp only [Bool.false_eq_true, if_false]
    rw [replaceFirst_eq_self_of_no_occurrence _ _ _ hno]
    cases hp : f p with
    | some d => rfl
    | none => rfl

/-- Witness for the amended C6 at a concrete unrelated path. -/
theorem findCompendiumEntry_fallback_shape_witness :
    (compendiumCanonicalPfx.isPrefixOf "JournalEntry.abc".toList = false
      ∧ ¬ compendiumLegacyPfx <:+: "JournalEntry.abc".toList)
    ∧ findCompendiumEntry wResolver "JournalEntry.abc".toList =
        wResolver "JournalEntry.abc".toList :=
  ⟨⟨by decide, by decide⟩,
    (findCompendiumEntry_fallback_shape wResolver).2.2 "JournalEntry.abc".toList
      (by decide) (by decide)⟩


/-- The string case of the rewriting walk agrees with the specified leaf
action. -/
theorem resolve_vstr (s : List Char) :
    resolveDynamicReferences (.vstr s) = .vstr (specRewriteString s) := by
  by_cases h : compendiumLegacyPfx.isPrefixOf s = true
  · simp [resolveDynamicReferences, specRewriteString, h,
      replaceFirst_eq_drop_of_isPrefixOf _ _ _ h]
  · have h' : compendiumLegacyPfx.isPrefixOf s = false := by
      rwa [Bool.not_eq_true] at h
    simp [resolveDynamicReferences, specRewriteString, h']

mutual

theorem resolve_eq_mapStrings :
    ∀ v : JValue, resolveDynamicReferences v = mapStrings specRewriteString v
  | .vstr s => by simpa only [mapStrings] using resolve_vstr s
  | .vnum n => by simp only [resolveDynamicReferences, mapStrings]
  | .vbool b => by simp only [resolveDynamicReferences, mapStrings]
  | .vnull => by simp only [resolveDynamicReferences, mapStrings]
  | .vobj es => by
    simp only [resolveDynamicReferences, mapStrings]
    exact congrArg JValue.vobj (resolveEntries_eq_mapStrings es)
  | .varr vs => by
    simp only [resolveDynamicReferences, mapStrings]
    exact congrArg JValue.varr (resolveArr_eq_mapStrings vs)

theorem resolveEntries_eq_mapStrings :
    ∀ es : JEntries, resolveEntries es = mapStringsEntries specRewriteString es
  | .nil => by simp only [resolveEntries, mapStringsEntries]
  | .cons k v rest => by
    simp only [resolveEntries, mapStringsEntries]
    rw [resolve_eq_mapStrings v, resolveEntries_eq_mapStrings rest]

theorem resolveArr_eq_mapStrings :
    ∀ vs : JArr, resolveArr vs = mapStringsArr specRewriteString vs
  | .nil => by simp only [resolveArr, mapStringsArr]
  | .cons v rest => by
    simp only [resolveArr, mapStringsArr]
    rw [resolve_eq_mapStrings v, resolveArr_eq_mapStrings rest]

end

/-- C4: the reference-rewriting walk is total (it is a Lean function, so
it terminates on every finite tree) and acts exactly leaf-wise at every
depth: each string leaf starting with the legacy marker
`"Compendium.dnd5e."` is replaced by the same string under
`"Compendium.dnd5e-2014."`; every string leaf not starting with the legacy
marker — including strings already under the canonical marker — and every
non-string leaf is left unchanged, and the tree shape is preserved. -/
theorem resolveDynamicReferences_rewrites_leafwise :
    (∀ v : JValue, resolveDynamicReferences v = mapStrings specRewriteString v)
    ∧ (∀ rest, resolveDynamicReferences (.vstr (compendiumLegacyPfx ++ rest)) =
        .vstr (compendiumCanonicalPfx ++ rest))
    ∧ (∀ s, compendiumLegacyPfx.isPrefixOf s = false →
        resolveDynamicReferences (.vstr s) = .vstr s)
    ∧ (∀ rest, resolveDynamicReferences (.vstr (compendiumCanonicalPfx ++ rest)) =
        .vstr (compendiumCanonicalPfx ++ rest)) := by
  refine ⟨resolve_eq_mapStrings, ?_, ?_, ?_⟩
  · intro rest
    rw [resolve_vstr]
    simp [specRewriteString, isPrefixOf_append_self]
  · intro s hs
    rw [resolve_vstr]
    simp [specRewriteString, hs]
  · intro rest
    rw [resolve_vstr]
    simp [specRewriteString, compendiumLegacyPfx_not_in_canonical]

/-- Witness for C4: the non-matching string `"hello"` is untouched by the
walk. -/
theorem resolveDynamicReferences_rewrites_leafwise_witness :
    compendiumLegacyPfx.isPrefixOf "hello".toList = false
    ∧ resolveDynamicReferences (.vstr "hello".toList) = .vstr "hello".toList :=
  ⟨by decide,
    resolveDynamicReferences_rewrites_leafwise.2.2.1 "hello".toList (by decide)⟩

theorem lk_singleton {V : Type} (p q : FlagPath) (v : V) :
    lk [(p, v)] q = if p = q then some v else none := by
  simp [lk]

theorem setFlagDiff_eq {V : Type} [DecidableEq V] (defaults bag : Bag V)
    (p : FlagPath) (value : V) :
    setFlagDiff defaults bag p value =
      (if override defaults bag p = some value then [] else [(p, value)]) := by
  by_cases h : override defaults bag p = some value <;>
    simp [setFlagDiff, List.filter, h]

/-- C5: on a `setFlag` for the canonical scope of a document with a
registered flags data model, the dotted key is expanded to a single nested
path; the effective flag value at that path becomes the written value,
while every other path keeps its previous effective value (siblings are
never overwritten); when a prior flag object exists, the persisted change
is exactly the dry-run diff — empty when the model already holds the
value, and only the written path otherwise — rather than the wholesale
merged object; when no prior object exists, the change converted once
through the model (schema defaults overridden by the change) is
persisted. -/
theorem setFlag_canonical_behavior {V : Type} [DecidableEq V] (defaults : Bag V)
    (flags : List Char → Option (Bag V)) (key : List Char) (value : V) :
    flagView defaults (setFlag (some defaults) flags canonicalNS key value)
        (splitOnDot key) = some value
    ∧ (∀ q, q ≠ splitOnDot key →
        flagView defaults (setFlag (some defaults) flags canonicalNS key value) q
          = flagView defaults flags q)
    ∧ (∀ bag, flags canonicalNS = some bag →
        setFlag (some defaults) flags canonicalNS key value canonicalNS =
          some (override bag (listToBag (setFlagDiff defaults bag (splitOnDot key) value)))
        ∧ setFlagDiff defaults bag (splitOnDot key) value =
            (if override defaults bag (splitOnDot key) = some value then []
              else [(splitOnDot key, value)]))
    ∧ (flags canonicalNS = none →
        setFlag (some defaults) flags canonicalNS key value canonicalNS =
          some (override defaults (listToBag [(splitOnDot key, value)]))) := by
  cases hf : flags canonicalNS with
  | some bag =>
    refine ⟨?_, ?_, ?_, ?_⟩
    · by_cases h : override defaults bag (splitOnDot key) = some value
      · have hD : setFlagDiff defaults bag (splitOnDot key) value = [] := by
          rw [setFlagDiff_eq, if_pos h]
        simpa [flagView, setFlag, hf, hD, override, listToBag, lk] using h
      · have hD : setFlagDiff defaults bag (splitOnDot key) value =
            [(splitOnDot key, value)] := by
          rw [setFlagDiff_eq, if_neg h]
        simp [flagView, setFlag, hf, hD, override, listToBag, lk]
    · intro q hq
      by_cases h : override defaults bag (splitOnDot key) = some value
      · have hD : setFlagDiff defaults bag (splitOnDot key) value = [] := by
          rw [setFlagDiff_eq, if_pos h]
        simp [flagView, setFlag, hf, hD, override, listToBag, lk]
      · have hD : setFlagDiff defaults bag (splitOnDot key) value =
            [(splitOnDot key, value)] := by
          rw [setFlagDiff_eq, if_neg h]
        simp [flagView, setFlag, hf, hD, override, listToBag, lk, Ne.symm hq]
    · intro bag' hbag
      cases hbag
      constructor
      · simp [setFlag, hf]
      · exact setFlagDiff_eq defaults bag (splitOnDot key) value
    · intro hnone
      cases hnone
  | none =>
    refine ⟨?_, ?_, ?_, ?_⟩
    · simp [flagView, setFlag, hf, override, listToBag, lk]
    · intro q hq
      simp only [flagView, setFlag, hf]
      simp only [List.cons.injEq, eq_self_iff_true, true_and, Option.isSome_some,
        and_self, if_true]
      cases hd : defaults q <;>
        simp [override, listToBag, lk_singleton, Ne.symm hq, hd]
    · intro bag' hbag
      cases hbag
    · intro _
      simp [setFlag, hf]

/-- Witness for C5 at a concrete document: defaults `{d: 1}`, prior
canonical flags `{a: {b: 7}}`, write of key `"a.b"` with value `9`. -/
theorem setFlag_canonical_behavior_witness :
    (([['z']] : FlagPath) ≠ splitOnDot "a.b".toList
      ∧ wFlags canonicalNS = some (listToBag [([['a'], ['b']], 7)]))
    ∧ (flagView wDefaults (setFlag (some wDefaults) wFlags canonicalNS "a.b".toList 9)
          ([['z']]) = flagView wDefaults wFlags ([['z']])
      ∧ setFlag (some wDefaults) wFlags canonicalNS "a.b".toList 9 canonicalNS =
          some (override (listToBag [([['a'], ['b']], 7)])
            (listToBag (setFlagDiff wDefaults (listToBag [([['a'], ['b']], 7)])
              (splitOnDot "a.b".toList) 9)))
      ∧ setFlagDiff wDefaults (listToBag [([['a'], ['b']], 7)]) (splitOnDot "a.b".toList) 9 =
          (if override wDefaults (listToBag [([['a'], ['b']], 7)])
              (splitOnDot "a.b".toList) = some 9 then []
            else [(splitOnDot "a.b".toList, 9)])) :=
  ⟨⟨by decide, rfl⟩,
    (setFlag_canonical_behavior wDefaults wFlags "a.b".toList 9).2.1 [['z']] (by decide),
    ((setFlag_canonical_behavior wDefaults wFlags "a.b".toList 9).2.2.1
      (listToBag [([['a'], ['b']], 7)]) rfl).1,
    ((setFlag_canonical_behavior wDefaults wFlags "a.b".toList 9).2.2.1
      (listToBag [([['a'], ['b']], 7)]) rfl).2⟩
